import Mathlib

/-!
Verification of `datalab/stackdriver/monitoring/_query.py`.

This file shallowly embeds the `Query` class of that module:

* `labels_as_dataframe` — the label-metadata-to-dataframe normalization:
  the list of header records produced by `self.iter(headers_only=True)` is
  flattened by `pandas.io.json.json_normalize` into dotted-key columns, the
  columns are re-keyed by `col.rsplit(".", 1)` into two-level headers,
  re-ordered (`(metric, type)`, `(resource, type)`, the sorted
  `metric.labels` columns, then the `resource.labels` columns in the order
  given by the external `_sorted_resource_labels` function), the rows are
  sorted by `sort_values` over the full column list (missing values sort
  last), the index is reset to `0..n-1`, and missing values are replaced by
  the empty string by `fillna("")`.
* `iter`, `execute`, `results` — the per-metric-type iteration and the
  `_results` caching logic, modelled as explicit state passing over a
  `QueryState`.

The external canonical resource-label ordering is an injected parameter
`srl`; `sortedResourceLabels` is a concrete instantiation modelling the
documented ordering of the external library, used for concrete evaluations.
Missing cells are `Option.none` (pandas `NaN`) until the final
`fillna("")` step.
-/

/-- One time-series header record: the resource type and labels together
with the metric type and labels of one time series, as captured by
`{"resource": ts.resource.__dict__, "metric": ts.metric.__dict__}`.
Label mappings are association lists of string keys to string values. -/
structure HeaderRecord where
  resourceType : String
  resourceLabels : List (String × String)
  metricType : String
  metricLabels : List (String × String)
deriving DecidableEq, Repr

/-- The returned dataframe: two-level column headers, an integer row index,
and string-valued cells (after `fillna("")` no cell is a null marker). -/
structure DataFrame where
  columns : List (String × String)
  index : List Nat
  rows : List (List String)
deriving DecidableEq, Repr

/-- Splits a character list at its last occurrence of `.`, returning the
parts before and after that dot; `none` when no dot occurs. -/
def rsplitAux : List Char → Option (List Char × List Char)
  | [] => none
  | c :: cs =>
    match rsplitAux cs with
    | some (b, a) => some (c :: b, a)
    | none => if c = '.' then some ([], cs) else none

/-- Python `s.rsplit(".", 1)`: split at the last dot.  All flattened keys
produced below contain a dot, so the no-dot fallback is never reached. -/
def rsplitDot (s : String) : String × String :=
  match rsplitAux s.data with
  | some (b, a) => (⟨b⟩, ⟨a⟩)
  | none => (s, "")

/-- A string containing no `.` character. -/
def dotFree (s : String) : Prop := '.' ∉ s.data

instance (s : String) : Decidable (dotFree s) := by
  unfold dotFree; infer_instance

/-- `json_normalize` flattening of one header record into dotted-key/value
pairs: `resource.type`, `resource.labels.<name>`..., `metric.type`,
`metric.labels.<name>`... (label values are scalar strings, so flattening
recurses exactly one level into the label mappings). -/
def flattenRecord (r : HeaderRecord) : List (String × String) :=
  [("resource.type", r.resourceType)]
    ++ r.resourceLabels.map (fun p => ("resource.labels." ++ p.1, p.2))
    ++ [("metric.type", r.metricType)]
    ++ r.metricLabels.map (fun p => ("metric.labels." ++ p.1, p.2))

/-- Cell lookup in a flattened record: the value stored at a dotted key,
`none` (pandas `NaN`) when the record has no such key. -/
def lookupKey (kvs : List (String × String)) (k : String) : Option String :=
  (kvs.find? (fun p => p.1 == k)).map Prod.snd

/-- Appends the keys of `ks` not yet present in `acc`, keeping first
appearances. -/
def dedupAppend (acc : List String) (ks : List String) : List String :=
  ks.foldl (fun a k => if k ∈ a then a else a ++ [k]) acc

/-- The columns of `json_normalize(headers)`: the union of all flattened
keys over the records, in order of first appearance. -/
def allColumns (records : List HeaderRecord) : List String :=
  records.foldl (fun acc r => dedupAppend acc ((flattenRecord r).map Prod.fst)) []

/-- Lexicographic strict comparison of character lists, the order Python
uses on strings (code point by code point). -/
def charListLt : List Char → List Char → Bool
  | [], [] => false
  | [], _ :: _ => true
  | _ :: _, [] => false
  | a :: as, b :: bs =>
    if a < b then true else if b < a then false else charListLt as bs

/-- Python `a < b` on strings. -/
def strLt (a b : String) : Bool := charListLt a.data b.data

/-- Python `a <= b` on strings. -/
def strLe (a b : String) : Bool := !strLt b a

/-- Python tuple comparison on two-level column headers (lexicographic on
the pair of strings), as used by `sorted` on the metric-label columns. -/
def pairLe (c d : String × String) : Bool :=
  strLt c.1 d.1 || (c.1 == d.1 && strLe c.2 d.2)

/-- Strict comparison of cells as `sort_values` orders them: present values
compare as strings, a missing value (`NaN`) sorts after every present
value, and two missing values tie. -/
def cellLt (a b : Option String) : Bool :=
  match a, b with
  | some x, some y => strLt x y
  | some _, none => true
  | none, _ => false

/-- Row comparison of `sort_values(sorted_columns)`: lexicographic over the
cells in column order, with `cellLt` on each cell. -/
def rowLe : List (Option String) → List (Option String) → Bool
  | [], _ => true
  | _ :: _, [] => false
  | a :: as, b :: bs => if cellLt a b then true else if cellLt b a then false else rowLe as bs

/-- The well-known resource labels the external library places first. -/
def TOP_RESOURCE_LABELS : List String := ["project_id", "aws_account", "region", "zone"]

/-- The canonical resource-label ordering of the external library
(`gcloud.monitoring._dataframe._sorted_resource_labels`): the well-known
labels of `TOP_RESOURCE_LABELS` first, in that fixed order, then the
remaining labels sorted.  This is one concrete instantiation of the
injected ordering parameter `srl`, used for concrete evaluations. -/
def sortedResourceLabels (labels : List String) : List String :=
  TOP_RESOURCE_LABELS.filter (fun l => labels.contains l)
    ++ (labels.filter (fun l => !TOP_RESOURCE_LABELS.contains l)).mergeSort strLe

/-- `Query.labels_as_dataframe`, embedding the body of the method for a
given list of header records (the output of `self.iter(headers_only=True)`)
and an injected resource-label ordering `srl`:

* empty input returns the empty `pandas.DataFrame()`;
* otherwise the flattened columns are re-keyed by `rsplit(".", 1)`;
* `df["resource.labels"]` raises `KeyError` when no column has that
  top-level key (the `Except.error` branch);
* the columns are re-ordered into `sorted_columns`;
* the rows are sorted by `sort_values(sorted_columns)` (missing values
  last), the index is reset to `0..n-1`, and `fillna("")` replaces every
  missing value by the empty string. -/
def colsOf (records : List HeaderRecord) : List (String × String) :=
  (allColumns records).map rsplitDot

/-- The columns selected by `df["resource.labels"]`: those whose two-level
header has top-level key `resource.labels`. -/
def resourceLabelColsOf (records : List HeaderRecord) : List (String × String) :=
  (colsOf records).filter (fun c => c.1 == "resource.labels")

/-- The columns whose two-level header has top-level key `metric.labels`. -/
def metricLabelColsOf (records : List HeaderRecord) : List (String × String) :=
  (colsOf records).filter (fun c => c.1 == "metric.labels")

/-- The re-ordered column list `sorted_columns` of `labels_as_dataframe`:
`(metric, type)`, `(resource, type)`, the `metric.labels` columns sorted by
Python tuple comparison, then `(resource.labels, key)` for each key in the
order produced by the injected `srl` on the observed resource label keys. -/
def sorted_columns (srl : List String → List String)
    (records : List HeaderRecord) : List (String × String) :=
  [("metric", "type"), ("resource", "type")]
    ++ (metricLabelColsOf records).mergeSort pairLe
    ++ (srl ((resourceLabelColsOf records).map Prod.snd)).map
        (fun k => ("resource.labels", k))

/-- The (pre-`fillna`) row of one record under a column list: for each
two-level header the value the record holds at the corresponding dotted key, or
`none` (`NaN`) when the record lacks that key. -/
def optRowOf (cols : List (String × String)) (r : HeaderRecord) : List (Option String) :=
  cols.map (fun c => lookupKey (flattenRecord r) (c.1 ++ "." ++ c.2))

/-- `fillna("")` on one row: every missing value becomes the empty string. -/
def fillRow (row : List (Option String)) : List String :=
  row.map (fun v => v.getD "")

def labels_as_dataframe (srl : List String → List String)
    (records : List HeaderRecord) : Except String DataFrame :=
  if records.isEmpty then
    .ok ⟨[], [], []⟩
  else if (resourceLabelColsOf records).isEmpty then
    .error "KeyError: resource.labels"
  else
    .ok ⟨sorted_columns srl records,
         List.range ((records.map (optRowOf (sorted_columns srl records))).mergeSort rowLe).length,
         ((records.map (optRowOf (sorted_columns srl records))).mergeSort rowLe).map fillRow⟩

/-- Spec-side definition (from the words of the spec, for comparison with the
code): the union of metric label keys over all records. -/
def metricKeyUnion (records : List HeaderRecord) : List String :=
  (records.flatMap (fun r => r.metricLabels.map Prod.fst)).dedup

/-- Spec-side definition: the union of resource label keys over all
records. -/
def resourceKeyUnion (records : List HeaderRecord) : List String :=
  (records.flatMap (fun r => r.resourceLabels.map Prod.fst)).dedup

/-- Spec-side definition of the column set claimed by the spec:
`(metric, type)`, `(resource, type)`, one `(metric.labels, name)` column
per name in the union of metric label keys, and one
`(resource.labels, name)` column per name in the union of resource label
keys. -/
def specColumns (records : List HeaderRecord) : List (String × String) :=
  [("metric", "type"), ("resource", "type")]
    ++ (metricKeyUnion records).map (fun n => ("metric.labels", n))
    ++ (resourceKeyUnion records).map (fun n => ("resource.labels", n))

/-- The query filter, reduced to the field the embedded methods touch: the
tuple of metric types. -/
structure QueryFilter where
  metric_type : List String
deriving DecidableEq, Repr

/-- The mutable state of a `Query` object: its filter and its cached
`_results` field (`None` until populated).  The query-results type `R` is
abstract. -/
structure QueryState (R : Type) where
  filter : QueryFilter
  _results : Option R
deriving DecidableEq, Repr

/-- `Query.iter(headers_only=True)`: makes a copy of the query, then for
each metric type of the filter sets the filter of the copy to that single
metric type and yields the results of the superclass iteration on the
copy, modelled by the oracle `superIter` mapping one metric type to its
header records.  Returns the yielded records together with the state of
the original query, which the method never assigns to — only the copy is
updated. -/
def iterQuery {R : Type} (superIter : String → List HeaderRecord)
    (q : QueryState R) : List HeaderRecord × QueryState R :=
  ((q.filter.metric_type.foldl
      (fun (acc : List HeaderRecord × QueryState R) mt =>
        (acc.1 ++ superIter mt, ⟨⟨[mt]⟩, acc.2._results⟩))
      ([], ⟨⟨q.filter.metric_type⟩, q._results⟩)).1,
   q)

/-- `Query.labels_as_dataframe` as a method on the query state: the header
records come from `self.iter(headers_only=True)`, and the table is built
from them by `labels_as_dataframe`. -/
def labels_as_dataframe_method {R : Type} (srl : List String → List String)
    (superIter : String → List HeaderRecord) (q : QueryState R) :
    Except String DataFrame × QueryState R :=
  (labels_as_dataframe srl (iterQuery superIter q).1, (iterQuery superIter q).2)

/-- `Query.execute(use_cache, use_short_metric_types)`: recomputes and
stores the results when `use_cache` is false or nothing is cached yet;
otherwise leaves the state alone.  `compute` models the
`QueryResults(self, use_short_metric_types)` construction. -/
def execute {R : Type} (compute : QueryState R → Bool → R)
    (use_cache use_short_metric_types : Bool) (q : QueryState R) : QueryState R :=
  if !use_cache || q._results.isNone then
    ⟨q.filter, some (compute q use_short_metric_types)⟩
  else q

/-- `Query.results(use_cache, use_short_metric_types)`: calls `execute`
and returns the stored `_results` together with the updated state. -/
def results {R : Type} (compute : QueryState R → Bool → R)
    (use_cache use_short_metric_types : Bool) (q : QueryState R) :
    Option R × QueryState R :=
  let q2 := execute compute use_cache use_short_metric_types q
  (q2._results, q2)

/-- First record of the worked example in the specification: a
`gce_instance` in zone `us-central1-a` with metric label
`instance_name = vm1`. -/
def exampleRecordA : HeaderRecord :=
  ⟨"gce_instance", [("zone", "us-central1-a")], "cpu/utilization",
   [("instance_name", "vm1")]⟩

/-- Second record of the worked example in the specification: a `gce_instance`
in zone `us-central1-b` with no metric labels. -/
def exampleRecordB : HeaderRecord :=
  ⟨"gce_instance", [("zone", "us-central1-b")], "cpu/utilization", []⟩

/-- The input of the worked example in the specification. -/
def exampleRecords : List HeaderRecord := [exampleRecordA, exampleRecordB]

/-- All label names of all records are dot-free (contain no `.`). -/
def recordsDotFree (records : List HeaderRecord) : Prop :=
  ∀ r ∈ records, (∀ p ∈ r.resourceLabels, dotFree p.1) ∧ (∀ p ∈ r.metricLabels, dotFree p.1)

instance (records : List HeaderRecord) : Decidable (recordsDotFree records) := by
  unfold recordsDotFree
  infer_instance

/-- Spec-side definition: plain lexicographic strict comparison of two
rows of final (filled) string cells, the order the spec claims for the
returned rows. -/
def strRowLt : List String → List String → Bool
  | [], [] => false
  | [], _ :: _ => true
  | _ :: _, [] => false
  | a :: as, b :: bs =>
    if strLt a b then true else if strLt b a then false else strRowLt as bs

/-! ### Lemmas about splitting at the last dot -/

lemma rsplitAux_eq_none_iff (l : List Char) : rsplitAux l = none ↔ '.' ∉ l := by
  induction l with
  | nil => simp [rsplitAux]
  | cons c cs ih =>
    rw [rsplitAux]
    rcases h : rsplitAux cs with _ | ⟨b, a⟩
    · have hcs : '.' ∉ cs := ih.mp h
      by_cases hc : c = '.'
      · subst hc; simp [hcs]
      · have hc2 : ('.' = c) → False := fun hx => hc hx.symm
        simp only [if_neg hc]
        simp only [List.mem_cons, not_or]
        constructor
        · intro
          exact ⟨hc2, hcs⟩
        · intro
          trivial
    · have hcs : '.' ∈ cs := by
        by_contra hn
        rw [ih.mpr hn] at h
        exact Option.noConfusion h
      simp [hcs]

lemma rsplitAux_append_of_none {a : List Char} (h : rsplitAux a = none) (b : List Char) :
    rsplitAux (b ++ '.' :: a) = some (b, a) := by
  induction b with
  | nil => simp [rsplitAux, h]
  | cons c cs ih => simp [rsplitAux, ih]

lemma rsplitAux_append_of_some {a a₁ a₂ : List Char} (h : rsplitAux a = some (a₁, a₂))
    (b : List Char) : rsplitAux (b ++ a) = some (b ++ a₁, a₂) := by
  induction b with
  | nil => simpa using h
  | cons c cs ih => simp [rsplitAux, ih]

lemma rsplitAux_some_spec {l b a : List Char} (h : rsplitAux l = some (b, a)) :
    l = b ++ '.' :: a ∧ '.' ∉ a := by
  induction l generalizing b a with
  | nil => simp [rsplitAux] at h
  | cons c cs ih =>
    rw [rsplitAux] at h
    rcases h2 : rsplitAux cs with _ | ⟨b2, a2⟩
    · rw [h2] at h
      by_cases hc : c = '.'
      · subst hc
        rw [if_pos rfl] at h
        rcases h with ⟨rfl, rfl⟩
        exact ⟨rfl, (rsplitAux_eq_none_iff cs).mp h2⟩
      · simp [hc] at h
    · rw [h2] at h
      rcases h with ⟨rfl, rfl⟩
      obtain ⟨hcs, hna⟩ := ih h2
      exact ⟨by rw [hcs, List.cons_append], hna⟩

lemma rsplitDot_of_dotFree (p n : String) (hn : dotFree n) :
    rsplitDot (p ++ "." ++ n) = (p, n) := by
  have hd : (p ++ "." ++ n).data = p.data ++ '.' :: n.data := by
    simp [String.data_append]
  unfold rsplitDot
  rw [hd, rsplitAux_append_of_none ((rsplitAux_eq_none_iff _).mpr hn)]

/-- Reconstruction: whenever a string contains a dot, `rsplitDot` produces
the segment before the last dot and the dot-free segment after it. -/
lemma rsplitDot_spec {s : String} (h : '.' ∈ s.data) :
    s = (rsplitDot s).1 ++ "." ++ (rsplitDot s).2 ∧ dotFree (rsplitDot s).2 := by
  unfold rsplitDot
  rcases hs : rsplitAux s.data with _ | ⟨b, a⟩
  · exact absurd ((rsplitAux_eq_none_iff _).mp hs) (by simpa using h)
  · obtain ⟨hdata, hna⟩ := rsplitAux_some_spec hs
    refine ⟨String.ext ?_, hna⟩
    simp [String.data_append, hdata]

/-- Splitting a label key whose name contains a dot: the split happens at
the LAST dot, inside the name, so the first component strictly extends the
group prefix. -/
lemma rsplit_label_key (g n : String) :
    (dotFree n ∧ rsplitDot (g ++ "." ++ n) = (g, n)) ∨
    (¬dotFree n ∧ ∃ b a : List Char, rsplitAux n.data = some (b, a) ∧
      rsplitDot (g ++ "." ++ n) = (⟨g.data ++ '.' :: b⟩, ⟨a⟩)) := by
  by_cases hdf : dotFree n
  · exact Or.inl ⟨hdf, rsplitDot_of_dotFree g n hdf⟩
  · refine Or.inr ⟨hdf, ?_⟩
    have hdot : '.' ∈ n.data := by
      unfold dotFree at hdf
      exact not_not.mp hdf
    rcases haux : rsplitAux n.data with _ | ⟨b, a⟩
    · exact absurd ((rsplitAux_eq_none_iff n.data).mp haux) (by simpa using hdot)
    · refine ⟨b, a, rfl, ?_⟩
      unfold rsplitDot
      have hd : (g ++ "." ++ n).data = (g.data ++ ['.']) ++ n.data := by
        simp [String.data_append]
      rw [hd, rsplitAux_append_of_some haux (g.data ++ ['.']), List.append_assoc]
      rfl

lemma mlabel_prefix_ne_mlabels (b : List Char) :
    (⟨"metric.labels".data ++ '.' :: b⟩ : String) ≠ "metric.labels" := by
  intro he
  have hd : "metric.labels".data ++ '.' :: b = "metric.labels".data :=
    congrArg String.data he
  have hl := congrArg List.length hd
  simp [List.length_append, List.length_cons] at hl

lemma rlabel_prefix_ne_rlabels (b : List Char) :
    (⟨"resource.labels".data ++ '.' :: b⟩ : String) ≠ "resource.labels" := by
  intro he
  have hd : "resource.labels".data ++ '.' :: b = "resource.labels".data :=
    congrArg String.data he
  have hl := congrArg List.length hd
  simp [List.length_append, List.length_cons] at hl

lemma mlabel_prefix_ne_rlabels (b : List Char) :
    (⟨"metric.labels".data ++ '.' :: b⟩ : String) ≠ "resource.labels" := by
  intro he
  have hd : "metric.labels".data ++ '.' :: b = "resource.labels".data :=
    congrArg String.data he
  rw [show "metric.labels".data = 'm' :: "etric.labels".data from rfl,
      show "resource.labels".data = 'r' :: "esource.labels".data from rfl,
      List.cons_append] at hd
  injection hd with h1 h2
  exact absurd h1 (by decide)

lemma rlabel_prefix_ne_mlabels (b : List Char) :
    (⟨"resource.labels".data ++ '.' :: b⟩ : String) ≠ "metric.labels" := by
  intro he
  have hd : "resource.labels".data ++ '.' :: b = "metric.labels".data :=
    congrArg String.data he
  rw [show "resource.labels".data = 'r' :: "esource.labels".data from rfl,
      show "metric.labels".data = 'm' :: "etric.labels".data from rfl,
      List.cons_append] at hd
  injection hd with h1 h2
  exact absurd h1 (by decide)

/-! ### Membership and uniqueness of the flattened columns -/

lemma mem_dedupAppend {x : String} (acc ks : List String) :
    x ∈ dedupAppend acc ks ↔ x ∈ acc ∨ x ∈ ks := by
  unfold dedupAppend
  induction ks generalizing acc with
  | nil => simp
  | cons k ks ih =>
    simp only [List.foldl_cons]
    by_cases hk : k ∈ acc
    · rw [if_pos hk, ih]
      simp only [List.mem_cons]
      constructor
      · rintro (h | h)
        · exact Or.inl h
        · exact Or.inr (Or.inr h)
      · rintro (h | rfl | h)
        · exact Or.inl h
        · exact Or.inl hk
        · exact Or.inr h
    · rw [if_neg hk, ih]
      simp only [List.mem_append, List.mem_singleton, List.mem_cons]
      tauto

lemma nodup_dedupAppend (acc ks : List String) (h : acc.Nodup) :
    (dedupAppend acc ks).Nodup := by
  unfold dedupAppend
  induction ks generalizing acc with
  | nil => simpa
  | cons k ks ih =>
    simp only [List.foldl_cons]
    by_cases hk : k ∈ acc
    · rw [if_pos hk]
      exact ih acc h
    · rw [if_neg hk]
      refine ih _ ?_
      simp [List.nodup_append, h, hk]

lemma mem_foldl_dedup {x : String} (rs : List HeaderRecord) (acc : List String) :
    x ∈ rs.foldl (fun acc r => dedupAppend acc ((flattenRecord r).map Prod.fst)) acc ↔
      x ∈ acc ∨ ∃ r ∈ rs, x ∈ (flattenRecord r).map Prod.fst := by
  induction rs generalizing acc with
  | nil => simp
  | cons r rs ih =>
    simp only [List.foldl_cons]
    rw [ih, mem_dedupAppend]
    simp only [List.mem_cons]
    constructor
    · rintro ((h | h) | ⟨r2, hr2, hx⟩)
      · exact Or.inl h
      · exact Or.inr ⟨r, Or.inl rfl, h⟩
      · exact Or.inr ⟨r2, Or.inr hr2, hx⟩
    · rintro (h | ⟨r2, (rfl | hr2), hx⟩)
      · exact Or.inl (Or.inl h)
      · exact Or.inl (Or.inr hx)
      · exact Or.inr ⟨r2, hr2, hx⟩

lemma mem_allColumns {x : String} (records : List HeaderRecord) :
    x ∈ allColumns records ↔ ∃ r ∈ records, x ∈ (flattenRecord r).map Prod.fst := by
  unfold allColumns
  rw [mem_foldl_dedup]
  simp

lemma nodup_allColumns (records : List HeaderRecord) : (allColumns records).Nodup := by
  unfold allColumns
  have h : ∀ (rs : List HeaderRecord) (acc : List String), acc.Nodup →
      (rs.foldl (fun acc r => dedupAppend acc ((flattenRecord r).map Prod.fst)) acc).Nodup := by
    intro rs
    induction rs with
    | nil => intro acc h; simpa
    | cons r rs ih =>
      intro acc h
      simp only [List.foldl_cons]
      exact ih _ (nodup_dedupAppend _ _ h)
  exact h records [] List.nodup_nil

lemma mem_flattenKeys {x : String} (r : HeaderRecord) :
    x ∈ (flattenRecord r).map Prod.fst ↔
      x = "resource.type" ∨ x = "metric.type" ∨
      (∃ p ∈ r.resourceLabels, x = "resource.labels." ++ p.1) ∨
      (∃ p ∈ r.metricLabels, x = "metric.labels." ++ p.1) := by
  simp only [flattenRecord, List.map_append, List.mem_append, List.map_cons, List.map_nil,
    List.mem_singleton, List.mem_map, List.map_map]
  constructor
  · rintro (((h | ⟨p, hp, rfl⟩) | h) | ⟨p, hp, rfl⟩)
    · exact Or.inl h
    · exact Or.inr (Or.inr (Or.inl ⟨p, hp, rfl⟩))
    · exact Or.inr (Or.inl h)
    · exact Or.inr (Or.inr (Or.inr ⟨p, hp, rfl⟩))
  · rintro (rfl | rfl | ⟨p, hp, rfl⟩ | ⟨p, hp, rfl⟩)
    · exact Or.inl (Or.inl (Or.inl rfl))
    · exact Or.inl (Or.inr rfl)
    · exact Or.inl (Or.inl (Or.inr ⟨p, hp, rfl⟩))
    · exact Or.inr ⟨p, hp, rfl⟩

/-! ### Classification of the two-level headers -/

lemma rsplit_resource_type : rsplitDot "resource.type" = ("resource", "type") := rfl

lemma rsplit_metric_type : rsplitDot "metric.type" = ("metric", "type") := rfl

lemma rsplit_resource_label (n : String) (hn : dotFree n) :
    rsplitDot ("resource.labels." ++ n) = ("resource.labels", n) :=
  rsplitDot_of_dotFree "resource.labels" n hn

lemma rsplit_metric_label (n : String) (hn : dotFree n) :
    rsplitDot ("metric.labels." ++ n) = ("metric.labels", n) :=
  rsplitDot_of_dotFree "metric.labels" n hn

lemma dot_mem_of_mem_allColumns {k : String} {records : List HeaderRecord}
    (h : k ∈ allColumns records) : '.' ∈ k.data := by
  rcases (mem_allColumns records).mp h with ⟨r, _, hk⟩
  rcases (mem_flattenKeys r).mp hk with rfl | rfl | ⟨p, _, rfl⟩ | ⟨p, _, rfl⟩
  · decide
  · decide
  · rw [String.data_append]
    exact List.mem_append_left _ (by decide)
  · rw [String.data_append]
    exact List.mem_append_left _ (by decide)

lemma mem_metricKeyUnion {n : String} {records : List HeaderRecord} :
    n ∈ metricKeyUnion records ↔ ∃ r ∈ records, ∃ p ∈ r.metricLabels, p.1 = n := by
  simp [metricKeyUnion, List.mem_dedup, List.mem_flatMap, List.mem_map]

lemma mem_resourceKeyUnion {n : String} {records : List HeaderRecord} :
    n ∈ resourceKeyUnion records ↔ ∃ r ∈ records, ∃ p ∈ r.resourceLabels, p.1 = n := by
  simp [resourceKeyUnion, List.mem_dedup, List.mem_flatMap, List.mem_map]

lemma mem_metricLabelColsOf {records : List HeaderRecord} {c : String × String}
    (hdf : recordsDotFree records) :
    c ∈ metricLabelColsOf records ↔
      ∃ n, n ∈ metricKeyUnion records ∧ c = ("metric.labels", n) := by
  unfold metricLabelColsOf colsOf
  rw [List.mem_filter]
  simp only [List.mem_map]
  constructor
  · rintro ⟨⟨k, hk, rfl⟩, hfst⟩
    rcases (mem_allColumns records).mp hk with ⟨r, hr, hkr⟩
    rcases (mem_flattenKeys r).mp hkr with rfl | rfl | ⟨p, hp, rfl⟩ | ⟨p, hp, rfl⟩
    · rw [rsplit_resource_type] at hfst
      exact absurd hfst (by decide)
    · rw [rsplit_metric_type] at hfst
      exact absurd hfst (by decide)
    · rw [rsplit_resource_label p.1 ((hdf r hr).1 p hp)] at hfst
      simp at hfst
    · rw [rsplit_metric_label p.1 ((hdf r hr).2 p hp)]
      exact ⟨p.1, mem_metricKeyUnion.mpr ⟨r, hr, p, hp, rfl⟩, rfl⟩
  · rintro ⟨n, hn, rfl⟩
    rcases mem_metricKeyUnion.mp hn with ⟨r, hr, p, hp, rfl⟩
    refine ⟨⟨"metric.labels." ++ p.1, ?_, rsplit_metric_label _ ((hdf r hr).2 p hp)⟩, rfl⟩
    exact (mem_allColumns records).mpr
      ⟨r, hr, (mem_flattenKeys r).mpr (Or.inr (Or.inr (Or.inr ⟨p, hp, rfl⟩)))⟩

lemma mem_resourceLabelColsOf {records : List HeaderRecord} {c : String × String}
    (hdf : recordsDotFree records) :
    c ∈ resourceLabelColsOf records ↔
      ∃ n, n ∈ resourceKeyUnion records ∧ c = ("resource.labels", n) := by
  unfold resourceLabelColsOf colsOf
  rw [List.mem_filter]
  simp only [List.mem_map]
  constructor
  · rintro ⟨⟨k, hk, rfl⟩, hfst⟩
    rcases (mem_allColumns records).mp hk with ⟨r, hr, hkr⟩
    rcases (mem_flattenKeys r).mp hkr with rfl | rfl | ⟨p, hp, rfl⟩ | ⟨p, hp, rfl⟩
    · rw [rsplit_resource_type] at hfst
      exact absurd hfst (by decide)
    · rw [rsplit_metric_type] at hfst
      exact absurd hfst (by decide)
    · rw [rsplit_resource_label p.1 ((hdf r hr).1 p hp)]
      exact ⟨p.1, mem_resourceKeyUnion.mpr ⟨r, hr, p, hp, rfl⟩, rfl⟩
    · rw [rsplit_metric_label p.1 ((hdf r hr).2 p hp)] at hfst
      simp at hfst
  · rintro ⟨n, hn, rfl⟩
    rcases mem_resourceKeyUnion.mp hn with ⟨r, hr, p, hp, rfl⟩
    refine ⟨⟨"resource.labels." ++ p.1, ?_, rsplit_resource_label _ ((hdf r hr).1 p hp)⟩, rfl⟩
    exact (mem_allColumns records).mpr
      ⟨r, hr, (mem_flattenKeys r).mpr (Or.inr (Or.inr (Or.inl ⟨p, hp, rfl⟩)))⟩

/-- General classification, without any dot-free assumption: the columns
whose top-level key is `metric.labels` are exactly `(metric.labels, n)` for
the DOT-FREE names `n` of the metric-key union; a name containing a dot is
split at its last dot instead and its header carries a longer top-level
key, so it never lands in this group. -/
lemma mem_metricLabelColsOf_iff {records : List HeaderRecord} {c : String × String} :
    c ∈ metricLabelColsOf records ↔
      ∃ n, n ∈ metricKeyUnion records ∧ dotFree n ∧ c = ("metric.labels", n) := by
  unfold metricLabelColsOf colsOf
  rw [List.mem_filter]
  simp only [List.mem_map]
  constructor
  · rintro ⟨⟨k, hk, rfl⟩, hfst⟩
    rcases (mem_allColumns records).mp hk with ⟨r, hr, hkr⟩
    rcases (mem_flattenKeys r).mp hkr with rfl | rfl | ⟨p, hp, rfl⟩ | ⟨p, hp, rfl⟩
    · rw [rsplit_resource_type] at hfst
      exact absurd hfst (by decide)
    · rw [rsplit_metric_type] at hfst
      exact absurd hfst (by decide)
    · rcases rsplit_label_key "resource.labels" p.1 with ⟨hdfn, heq⟩ | ⟨hdot, b, a, haux, heq⟩
      · rw [show ("resource.labels." ++ p.1) = "resource.labels" ++ "." ++ p.1 from rfl,
            heq] at hfst
        simp at hfst
      · rw [show ("resource.labels." ++ p.1) = "resource.labels" ++ "." ++ p.1 from rfl,
            heq] at hfst
        exact absurd (eq_of_beq hfst) (rlabel_prefix_ne_mlabels b)
    · rcases rsplit_label_key "metric.labels" p.1 with ⟨hdfn, heq⟩ | ⟨hdot, b, a, haux, heq⟩
      · rw [show ("metric.labels." ++ p.1) = "metric.labels" ++ "." ++ p.1 from rfl, heq]
        exact ⟨p.1, mem_metricKeyUnion.mpr ⟨r, hr, p, hp, rfl⟩, hdfn, rfl⟩
      · rw [show ("metric.labels." ++ p.1) = "metric.labels" ++ "." ++ p.1 from rfl,
            heq] at hfst
        exact absurd (eq_of_beq hfst) (mlabel_prefix_ne_mlabels b)
  · rintro ⟨n, hn, hdfn, rfl⟩
    rcases mem_metricKeyUnion.mp hn with ⟨r, hr, p, hp, rfl⟩
    refine ⟨⟨"metric.labels." ++ p.1, ?_, rsplit_metric_label _ hdfn⟩, rfl⟩
    exact (mem_allColumns records).mpr
      ⟨r, hr, (mem_flattenKeys r).mpr (Or.inr (Or.inr (Or.inr ⟨p, hp, rfl⟩)))⟩

/-- General classification of the `resource.labels` column group, without
any dot-free assumption. -/
lemma mem_resourceLabelColsOf_iff {records : List HeaderRecord} {c : String × String} :
    c ∈ resourceLabelColsOf records ↔
      ∃ n, n ∈ resourceKeyUnion records ∧ dotFree n ∧ c = ("resource.labels", n) := by
  unfold resourceLabelColsOf colsOf
  rw [List.mem_filter]
  simp only [List.mem_map]
  constructor
  · rintro ⟨⟨k, hk, rfl⟩, hfst⟩
    rcases (mem_allColumns records).mp hk with ⟨r, hr, hkr⟩
    rcases (mem_flattenKeys r).mp hkr with rfl | rfl | ⟨p, hp, rfl⟩ | ⟨p, hp, rfl⟩
    · rw [rsplit_resource_type] at hfst
      exact absurd hfst (by decide)
    · rw [rsplit_metric_type] at hfst
      exact absurd hfst (by decide)
    · rcases rsplit_label_key "resource.labels" p.1 with ⟨hdfn, heq⟩ | ⟨hdot, b, a, haux, heq⟩
      · rw [show ("resource.labels." ++ p.1) = "resource.labels" ++ "." ++ p.1 from rfl, heq]
        exact ⟨p.1, mem_resourceKeyUnion.mpr ⟨r, hr, p, hp, rfl⟩, hdfn, rfl⟩
      · rw [show ("resource.labels." ++ p.1) = "resource.labels" ++ "." ++ p.1 from rfl,
            heq] at hfst
        exact absurd (eq_of_beq hfst) (rlabel_prefix_ne_rlabels b)
    · rcases rsplit_label_key "metric.labels" p.1 with ⟨hdfn, heq⟩ | ⟨hdot, b, a, haux, heq⟩
      · rw [show ("metric.labels." ++ p.1) = "metric.labels" ++ "." ++ p.1 from rfl,
            heq] at hfst
        simp at hfst
      · rw [show ("metric.labels." ++ p.1) = "metric.labels" ++ "." ++ p.1 from rfl,
            heq] at hfst
        exact absurd (eq_of_beq hfst) (mlabel_prefix_ne_rlabels b)
  · rintro ⟨n, hn, hdfn, rfl⟩
    rcases mem_resourceKeyUnion.mp hn with ⟨r, hr, p, hp, rfl⟩
    refine ⟨⟨"resource.labels." ++ p.1, ?_, rsplit_resource_label _ hdfn⟩, rfl⟩
    exact (mem_allColumns records).mpr
      ⟨r, hr, (mem_flattenKeys r).mpr (Or.inr (Or.inr (Or.inl ⟨p, hp, rfl⟩)))⟩

/-! ### Order properties of the comparison functions -/

lemma charListLt_iff : ∀ l₁ l₂ : List Char,
    charListLt l₁ l₂ = true ↔ List.Lex (fun a b => a < b) l₁ l₂ := by
  intro l₁
  induction l₁ with
  | nil =>
    intro l₂
    cases l₂ with
    | nil => simp [charListLt]
    | cons b bs => exact iff_of_true rfl List.Lex.nil
  | cons a as ih =>
    intro l₂
    cases l₂ with
    | nil => simp [charListLt]
    | cons b bs =>
      rw [charListLt]
      by_cases hab : a < b
      · rw [if_pos hab]
        exact iff_of_true rfl (List.Lex.rel hab)
      · by_cases hba : b < a
        · rw [if_neg hab, if_pos hba]
          constructor
          · intro h
            exact absurd h (by simp)
          · intro h
            cases h with
            | cons h2 => exact absurd hba (lt_irrefl a)
            | rel h2 => exact absurd h2 hab
        · have heq : a = b := le_antisymm (not_lt.mp hba) (not_lt.mp hab)
          subst heq
          rw [if_neg hab, if_neg hba, ih bs]
          exact List.Lex.cons_iff.symm

lemma strLt_iff {a b : String} : strLt a b = true ↔ a < b := by
  rw [String.lt_iff_toList_lt]
  exact charListLt_iff a.data b.data

lemma strLt_eq_false_iff {a b : String} : strLt a b = false ↔ ¬a < b := by
  cases h : strLt a b with
  | false =>
    exact iff_of_true rfl
      (fun hlt => by rw [strLt_iff.mpr hlt] at h; exact Bool.noConfusion h)
  | true => exact iff_of_false (by simp) (fun hn => hn (strLt_iff.mp h))

lemma strLe_iff {a b : String} : strLe a b = true ↔ a ≤ b := by
  unfold strLe
  cases h : strLt b a with
  | false =>
    exact iff_of_true rfl (not_lt.mp (strLt_eq_false_iff.mp h))
  | true =>
    exact iff_of_false (by simp) (fun hle => absurd (strLt_iff.mp h) (not_lt.mpr hle))

lemma strLe_trans : ∀ a b c : String, strLe a b → strLe b c → strLe a c := by
  intro a b c hab hbc
  rw [strLe_iff] at *
  exact le_trans hab hbc

lemma strLe_total : ∀ a b : String, strLe a b || strLe b a := by
  intro a b
  rcases le_total a b with h | h
  · simp [strLe_iff.mpr h]
  · simp [strLe_iff.mpr h]

instance : IsAntisymm String (fun a b => strLe a b = true) :=
  ⟨fun _ _ hab hba => le_antisymm (strLe_iff.mp hab) (strLe_iff.mp hba)⟩

lemma pairLe_iff {a b : String × String} :
    pairLe a b = true ↔ a.1 < b.1 ∨ (a.1 = b.1 ∧ a.2 ≤ b.2) := by
  unfold pairLe
  rw [Bool.or_eq_true, Bool.and_eq_true, strLt_iff, strLe_iff, beq_iff_eq]

lemma pairLe_trans : ∀ a b c : String × String, pairLe a b → pairLe b c → pairLe a c := by
  intro a b c hab hbc
  rw [pairLe_iff] at *
  rcases hab with h1 | ⟨h1, h1b⟩ <;> rcases hbc with h2 | ⟨h2, h2b⟩
  · exact Or.inl (lt_trans h1 h2)
  · exact Or.inl (h2 ▸ h1)
  · exact Or.inl (h1 ▸ h2)
  · exact Or.inr ⟨h1.trans h2, le_trans h1b h2b⟩

lemma pairLe_total : ∀ a b : String × String, pairLe a b || pairLe b a := by
  intro a b
  rcases lt_trichotomy a.1 b.1 with h | h | h
  · simp [pairLe_iff.mpr (Or.inl h)]
  · rcases le_total a.2 b.2 with h2 | h2
    · simp [pairLe_iff.mpr (Or.inr ⟨h, h2⟩)]
    · simp [pairLe_iff.mpr (Or.inr ⟨h.symm, h2⟩)]
  · simp [pairLe_iff.mpr (Or.inl h)]

instance : IsAntisymm (String × String) (fun a b => pairLe a b = true) := by
  refine ⟨fun a b hab hba => ?_⟩
  rw [pairLe_iff] at hab hba
  rcases hab with h1 | ⟨h1, h1b⟩ <;> rcases hba with h2 | ⟨h2, h2b⟩
  · exact absurd h2 (lt_asymm h1)
  · exact absurd h1 (h2 ▸ lt_irrefl _)
  · exact absurd h2 (h1 ▸ lt_irrefl _)
  · exact Prod.ext h1 (le_antisymm h1b h2b)

lemma strLt_irrefl (a : String) : strLt a a = false :=
  strLt_eq_false_iff.mpr (lt_irrefl a)

lemma cellLt_irrefl (a : Option String) : cellLt a a = false := by
  cases a <;> simp [cellLt, strLt_irrefl]

lemma cellLt_asymm {a b : Option String} (h : cellLt a b = true) : cellLt b a = false := by
  cases a with
  | none => simp [cellLt] at h
  | some x =>
    cases b with
    | none => rfl
    | some y =>
      simp only [cellLt] at h ⊢
      exact strLt_eq_false_iff.mpr (lt_asymm (strLt_iff.mp h))

lemma cellLt_trans {a b c : Option String} (hab : cellLt a b = true)
    (hbc : cellLt b c = true) : cellLt a c = true := by
  cases a with
  | none => simp [cellLt] at hab
  | some x =>
    cases b with
    | none => simp [cellLt] at hbc
    | some y =>
      cases c with
      | none => rfl
      | some z =>
        simp only [cellLt] at hab hbc ⊢
        exact strLt_iff.mpr (lt_trans (strLt_iff.mp hab) (strLt_iff.mp hbc))

lemma cell_eq_of_not_lt {a b : Option String} (hab : cellLt a b = false)
    (hba : cellLt b a = false) : a = b := by
  cases a with
  | none =>
    cases b with
    | none => rfl
    | some y => simp [cellLt] at hba
  | some x =>
    cases b with
    | none => simp [cellLt] at hab
    | some y =>
      simp only [cellLt] at hab hba
      exact congrArg some (le_antisymm (not_lt.mp (strLt_eq_false_iff.mp hba))
        (not_lt.mp (strLt_eq_false_iff.mp hab)))

lemma rowLe_total : ∀ a b : List (Option String), rowLe a b || rowLe b a := by
  intro a
  induction a with
  | nil => intro b; simp [rowLe]
  | cons x xs ih =>
    intro b
    cases b with
    | nil => simp [rowLe]
    | cons y ys =>
      rw [rowLe, rowLe]
      by_cases h1 : cellLt x y = true
      · simp [h1]
      · by_cases h2 : cellLt y x = true
        · simp [h1, h2]
        · simp only [h1, h2, if_neg, Bool.false_eq_true, if_false, if_true]
          simpa using ih ys

lemma rowLe_trans : ∀ a b c : List (Option String),
    rowLe a b → rowLe b c → rowLe a c := by
  intro a
  induction a with
  | nil => intro b c _ _; rw [rowLe]
  | cons x xs ih =>
    intro b c hab hbc
    cases b with
    | nil => rw [rowLe] at hab; exact absurd hab (by simp)
    | cons y ys =>
      cases c with
      | nil => rw [rowLe] at hbc; exact absurd hbc (by simp)
      | cons z zs =>
        rw [rowLe] at hab hbc ⊢
        by_cases hxy : cellLt x y = true
        · by_cases hyz : cellLt y z = true
          · simp [cellLt_trans hxy hyz]
          · by_cases hzy : cellLt z y = true
            · rw [if_neg (by simp [hyz]), if_pos hzy] at hbc
              exact absurd hbc (by simp)
            · have : y = z := cell_eq_of_not_lt (by simpa using hyz) (by simpa using hzy)
              subst this
              simp [hxy]
        · by_cases hyx : cellLt y x = true
          · rw [if_neg (by simp [hxy]), if_pos hyx] at hab
            exact absurd hab (by simp)
          · have hx : x = y := cell_eq_of_not_lt (by simpa using hxy) (by simpa using hyx)
            subst hx
            rw [if_neg (by simp [hxy]), if_neg (by simp [hxy])] at hab
            by_cases hyz : cellLt x z = true
            · simp [hyz]
            · by_cases hzy : cellLt z x = true
              · rw [if_neg (by simp [hyz]), if_pos hzy] at hbc
                exact absurd hbc (by simp)
              · rw [if_neg (by simp [hyz]), if_neg (by simp [hzy])] at hbc ⊢
                exact ih ys zs hab hbc

instance : IsAntisymm (List (Option String)) (fun a b => rowLe a b = true) := by
  constructor
  intro a
  induction a with
  | nil =>
    intro b hab hba
    cases b with
    | nil => rfl
    | cons y ys => rw [rowLe] at hba; exact absurd hba (by simp)
  | cons x xs ih =>
    intro b hab hba
    cases b with
    | nil => rw [rowLe] at hab; exact absurd hab (by simp)
    | cons y ys =>
      rw [rowLe] at hab hba
      by_cases hxy : cellLt x y = true
      · rw [if_neg (by simp [cellLt_asymm hxy]), if_pos hxy] at hba
        exact absurd hba (by simp)
      · by_cases hyx : cellLt y x = true
        · rw [if_neg (by simp [hxy]), if_pos hyx] at hab
          exact absurd hab (by simp)
        · have hx : x = y := cell_eq_of_not_lt (by simpa using hxy) (by simpa using hyx)
          subst hx
          rw [if_neg (by simp [hxy]), if_neg (by simp [hxy])] at hab hba
          rw [ih ys hab hba]

/-! ### Characterization of the result of labels_as_dataframe -/

lemma labels_empty (srl : List String → List String) :
    labels_as_dataframe srl [] = .ok ⟨[], [], []⟩ := rfl

lemma labels_error_of_no_resource_cols {srl : List String → List String}
    {records : List HeaderRecord} (hne : records ≠ [])
    (hrc : resourceLabelColsOf records = []) :
    labels_as_dataframe srl records = .error "KeyError: resource.labels" := by
  unfold labels_as_dataframe
  rw [if_neg (by simpa using hne), if_pos (by simpa using hrc)]

lemma labels_ok_of_resource_cols {srl : List String → List String}
    {records : List HeaderRecord} (hne : records ≠ [])
    (hrc : resourceLabelColsOf records ≠ []) :
    labels_as_dataframe srl records =
      .ok ⟨sorted_columns srl records, List.range records.length,
           ((records.map (optRowOf (sorted_columns srl records))).mergeSort rowLe).map
             fillRow⟩ := by
  unfold labels_as_dataframe
  rw [if_neg (by simpa using hne), if_neg (by simpa using hrc)]
  rw [List.length_mergeSort, List.length_map]

lemma labels_ok_elim {srl : List String → List String}
    {records : List HeaderRecord} {df : DataFrame} (hne : records ≠ [])
    (h : labels_as_dataframe srl records = .ok df) :
    resourceLabelColsOf records ≠ [] ∧
      df = ⟨sorted_columns srl records, List.range records.length,
            ((records.map (optRowOf (sorted_columns srl records))).mergeSort rowLe).map
              fillRow⟩ := by
  by_cases hrc : resourceLabelColsOf records = []
  · rw [labels_error_of_no_resource_cols hne hrc] at h
    exact absurd h (by simp)
  · rw [labels_ok_of_resource_cols hne hrc] at h
    exact ⟨hrc, (Except.ok.inj h).symm⟩

/-! ### Iteration produces the concatenation of the per-metric-type results -/

lemma iter_foldl_fst {R : Type} (superIter : String → List HeaderRecord)
    (mts : List String) :
    ∀ (acc : List HeaderRecord) (s : QueryState R),
      (mts.foldl
        (fun (a : List HeaderRecord × QueryState R) mt =>
          (a.1 ++ superIter mt, ⟨⟨[mt]⟩, a.2._results⟩)) (acc, s)).1 =
        acc ++ mts.flatMap superIter := by
  induction mts with
  | nil => intro acc s; simp
  | cons mt mts ih =>
    intro acc s
    simp only [List.foldl_cons]
    rw [ih]
    simp [List.flatMap_cons]

lemma iterQuery_fst {R : Type} (superIter : String → List HeaderRecord)
    (q : QueryState R) :
    (iterQuery superIter q).1 = q.filter.metric_type.flatMap superIter := by
  unfold iterQuery
  rw [iter_foldl_fst]
  simp

/-! ### Claim theorems -/

/-- C4: for an empty input sequence of header records, `labels_as_dataframe`
returns a well-formed empty table with zero rows and zero columns (and an
empty index), and raises no error. -/
theorem C4_empty_input (srl : List String → List String) :
    ∃ df : DataFrame, labels_as_dataframe srl [] = Except.ok df ∧
      df.columns = [] ∧ df.rows = [] ∧ df.index = [] :=
  ⟨⟨[], [], []⟩, rfl, rfl, rfl, rfl⟩

/-- C9: `labels_as_dataframe` has no side effects on the query object: the
query state after the call equals the state before it (in particular the
filter with its tuple of metric types and the cached `_results` field are
unchanged — the iteration updates only a copy), and the returned table is
the pure function `labels_as_dataframe` of the header records yielded by
the iteration, which are the concatenation of the per-metric-type
iterations. -/
theorem C9_no_side_effects {R : Type} (srl : List String → List String)
    (superIter : String → List HeaderRecord) (q : QueryState R) :
    (labels_as_dataframe_method srl superIter q).2 = q ∧
    (labels_as_dataframe_method srl superIter q).2.filter.metric_type =
      q.filter.metric_type ∧
    (labels_as_dataframe_method srl superIter q).2._results = q._results ∧
    (iterQuery superIter q).1 = q.filter.metric_type.flatMap superIter ∧
    (labels_as_dataframe_method srl superIter q).1 =
      labels_as_dataframe srl (q.filter.metric_type.flatMap superIter) := by
  refine ⟨rfl, rfl, rfl, iterQuery_fst superIter q, ?_⟩
  show labels_as_dataframe srl (iterQuery superIter q).1 = _
  rw [iterQuery_fst superIter q]

/-- C10: once the stored results of the query hold some object `r`, every call
`results(use_cache := true, use_short_metric_types := b)` returns that very
`r` and leaves the state unchanged, for every `b` and every compute
function (so nothing is recomputed and `use_short_metric_types` is ignored
when reading from the cache); a call with `use_cache := false` recomputes
the results and replaces the stored object. -/
theorem C10_results_caching {R : Type} (q : QueryState R) (r : R)
    (h : q._results = some r) :
    (∀ (compute : QueryState R → Bool → R) (b : Bool),
        results compute true b q = (some r, q)) ∧
    (∀ (compute : QueryState R → Bool → R) (b : Bool),
        results compute false b q =
          (some (compute q b), ⟨q.filter, some (compute q b)⟩)) := by
  constructor
  · intro compute b
    simp [results, execute, h]
  · intro compute b
    simp [results, execute]

/-- Witness for C10 at a concrete state: a query with cached results `7`
returns `7` from the cache for `use_short_metric_types := false` under a
compute function that would produce `99`. -/
theorem C10_results_caching_witness :
    (⟨⟨["cpu/utilization"]⟩, some 7⟩ : QueryState Nat)._results = some 7 ∧
    results (fun _ _ => 99) true false
        (⟨⟨["cpu/utilization"]⟩, some 7⟩ : QueryState Nat) =
      (some 7, ⟨⟨["cpu/utilization"]⟩, some 7⟩) :=
  ⟨rfl, (C10_results_caching (⟨⟨["cpu/utilization"]⟩, some 7⟩ : QueryState Nat) 7
    rfl).1 (fun _ _ => 99) false⟩

attribute [local semireducible] List.mergeSort List.merge

/-- C6 refuted at a concrete well-formed input: a single record whose
resource-label mapping is empty (the spec allows any of the mappings to be
empty) makes `df["resource.labels"]` raise a `KeyError` instead of
returning a table. -/
theorem C6_counterexample :
    labels_as_dataframe sortedResourceLabels
      [⟨"global", [], "cpu/utilization", [("instance_name", "vm1")]⟩] =
    Except.error "KeyError: resource.labels" := rfl

/-- C6 amended: `labels_as_dataframe` raises no error and returns a table
for every well-formed input that is empty or contains at least one record
with a resource label whose name contains no dot; only the column-selection
step `df["resource.labels"]` can fail, and it fails exactly when no such
label exists. -/
theorem C6_amended_total (srl : List String → List String)
    (records : List HeaderRecord)
    (h : records = [] ∨ ∃ r ∈ records, ∃ p ∈ r.resourceLabels, dotFree p.1) :
    ∃ df : DataFrame, labels_as_dataframe srl records = Except.ok df := by
  rcases h with rfl | ⟨r, hr, p, hp, hpdf⟩
  · exact ⟨_, labels_empty srl⟩
  · have hne : records ≠ [] := by
      rintro rfl
      exact absurd hr (List.not_mem_nil r)
    have hrc : resourceLabelColsOf records ≠ [] := by
      have hk : ("resource.labels." ++ p.1) ∈ allColumns records :=
        (mem_allColumns records).mpr
          ⟨r, hr, (mem_flattenKeys r).mpr (Or.inr (Or.inr (Or.inl ⟨p, hp, rfl⟩)))⟩
      intro hempty
      have hmem : ("resource.labels", p.1) ∈ resourceLabelColsOf records := by
        unfold resourceLabelColsOf colsOf
        rw [List.mem_filter]
        exact ⟨List.mem_map.mpr ⟨_, hk, rsplit_resource_label p.1 hpdf⟩, rfl⟩
      rw [hempty] at hmem
      exact absurd hmem (List.not_mem_nil _)
    exact ⟨_, labels_ok_of_resource_cols hne hrc⟩

/-- Witness for the amended C6 at a concrete input with one dot-free
resource label. -/
theorem C6_amended_total_witness :
    (([⟨"gce_instance", [("zone", "us")], "cpu", []⟩] : List HeaderRecord) = [] ∨
      ∃ r ∈ ([⟨"gce_instance", [("zone", "us")], "cpu", []⟩] : List HeaderRecord),
        ∃ p ∈ r.resourceLabels, dotFree p.1) ∧
    ∃ df : DataFrame,
      labels_as_dataframe sortedResourceLabels
        [⟨"gce_instance", [("zone", "us")], "cpu", []⟩] = Except.ok df :=
  ⟨Or.inr ⟨⟨"gce_instance", [("zone", "us")], "cpu", []⟩, by decide,
     ("zone", "us"), by decide, by decide⟩,
   C6_amended_total sortedResourceLabels
     [⟨"gce_instance", [("zone", "us")], "cpu", []⟩]
     (Or.inr ⟨⟨"gce_instance", [("zone", "us")], "cpu", []⟩, by decide,
       ("zone", "us"), by decide, by decide⟩)⟩

/-- C1 refuted at a concrete input: a metric label named `a.b` (a name
containing a dot) contributes `(metric.labels, a.b)` to the column set the
spec claims, but the code flattens it to the key `metric.labels.a.b`,
re-keys it by splitting at the LAST dot into `(metric.labels.a, b)`, and
the re-ordering step then drops it, so the returned table has no column
for it at all. -/
theorem C1_counterexample :
    ("metric.labels", "a.b") ∈
      specColumns [⟨"gce_instance", [("zone", "us")], "cpu", [("a.b", "v")]⟩] ∧
    labels_as_dataframe sortedResourceLabels
      [⟨"gce_instance", [("zone", "us")], "cpu", [("a.b", "v")]⟩] =
    Except.ok ⟨[("metric", "type"), ("resource", "type"), ("resource.labels", "zone")],
               [0], [["cpu", "gce_instance", "us"]]⟩ :=
  ⟨by decide, rfl⟩

/-! ### Uniqueness and permutation lemmas for the column lists -/

lemma nodup_colsOf (records : List HeaderRecord) : (colsOf records).Nodup := by
  unfold colsOf
  refine List.Nodup.map_on ?_ (nodup_allColumns records)
  intro k1 h1 k2 h2 heq
  obtain ⟨e1, _⟩ := rsplitDot_spec (dot_mem_of_mem_allColumns h1)
  obtain ⟨e2, _⟩ := rsplitDot_spec (dot_mem_of_mem_allColumns h2)
  rw [e1, e2, heq]

lemma nodup_metricLabelColsOf (records : List HeaderRecord) :
    (metricLabelColsOf records).Nodup :=
  (nodup_colsOf records).filter _

lemma nodup_resourceLabelColsOf (records : List HeaderRecord) :
    (resourceLabelColsOf records).Nodup :=
  (nodup_colsOf records).filter _

lemma fst_eq_of_mem_resourceLabelColsOf {records : List HeaderRecord}
    {c : String × String} (h : c ∈ resourceLabelColsOf records) :
    c.1 = "resource.labels" := by
  unfold resourceLabelColsOf at h
  exact eq_of_beq (List.mem_filter.mp h).2

lemma nodup_resourceNames (records : List HeaderRecord) :
    ((resourceLabelColsOf records).map Prod.snd).Nodup := by
  refine List.Nodup.map_on ?_ (nodup_resourceLabelColsOf records)
  intro c1 h1 c2 h2 heq
  have e1 := fst_eq_of_mem_resourceLabelColsOf h1
  have e2 := fst_eq_of_mem_resourceLabelColsOf h2
  exact Prod.ext (e1.trans e2.symm) heq

lemma nodup_metricKeyUnion (records : List HeaderRecord) :
    (metricKeyUnion records).Nodup := by
  unfold metricKeyUnion
  exact List.nodup_dedup _

lemma nodup_resourceKeyUnion (records : List HeaderRecord) :
    (resourceKeyUnion records).Nodup := by
  unfold resourceKeyUnion
  exact List.nodup_dedup _

lemma mem_resourceNames {records : List HeaderRecord} {n : String}
    (hdf : recordsDotFree records) :
    n ∈ (resourceLabelColsOf records).map Prod.snd ↔ n ∈ resourceKeyUnion records := by
  rw [List.mem_map]
  constructor
  · rintro ⟨c, hc, rfl⟩
    rcases (mem_resourceLabelColsOf hdf).mp hc with ⟨m, hm, rfl⟩
    exact hm
  · intro hn
    exact ⟨("resource.labels", n), (mem_resourceLabelColsOf hdf).mpr ⟨n, hn, rfl⟩, rfl⟩

/-- The observed resource-label names are, as a set, exactly the dot-free
names of the resource-key union (no dot-free assumption needed). -/
lemma resourceNames_perm_filter (records : List HeaderRecord) :
    ((resourceLabelColsOf records).map Prod.snd).Perm
      ((resourceKeyUnion records).filter (fun n => decide (dotFree n))) := by
  refine (List.perm_ext_iff_of_nodup (nodup_resourceNames records)
    ((nodup_resourceKeyUnion records).filter _)).mpr ?_
  intro n
  rw [List.mem_filter, decide_eq_true_eq]
  constructor
  · intro h
    rcases List.mem_map.mp h with ⟨c, hc, rfl⟩
    rcases mem_resourceLabelColsOf_iff.mp hc with ⟨m, hm, hdfm, rfl⟩
    exact ⟨hm, hdfm⟩
  · rintro ⟨hn, hdfn⟩
    exact List.mem_map.mpr ⟨("resource.labels", n),
      mem_resourceLabelColsOf_iff.mpr ⟨n, hn, hdfn, rfl⟩, rfl⟩

/-- The sorted metric-label columns are exactly the lexicographically
sorted dot-free names of the metric-key union, each paired under the
`metric.labels` group (no dot-free assumption needed: names containing a
dot never reach this group). -/
lemma mergeSort_metric_eq_filter (records : List HeaderRecord) :
    (metricLabelColsOf records).mergeSort pairLe =
      (((metricKeyUnion records).filter (fun n => decide (dotFree n))).mergeSort
        strLe).map (fun n => (("metric.labels" : String), n)) := by
  have hs1 : List.Sorted (fun a b => pairLe a b = true)
      ((metricLabelColsOf records).mergeSort pairLe) :=
    List.sorted_mergeSort pairLe_trans pairLe_total _
  have hs2 : List.Sorted (fun a b => pairLe a b = true)
      ((((metricKeyUnion records).filter (fun n => decide (dotFree n))).mergeSort
        strLe).map (fun n => (("metric.labels" : String), n))) := by
    refine List.Pairwise.map _ ?_ (List.sorted_mergeSort strLe_trans strLe_total _)
    intro a b hab
    exact pairLe_iff.mpr (Or.inr ⟨rfl, strLe_iff.mp hab⟩)
  have hperm : ((metricLabelColsOf records).mergeSort pairLe).Perm
      ((((metricKeyUnion records).filter (fun n => decide (dotFree n))).mergeSort
        strLe).map (fun n => (("metric.labels" : String), n))) := by
    refine (List.mergeSort_perm _ _).trans (List.Perm.trans ?_
      (((List.mergeSort_perm ((metricKeyUnion records).filter
          (fun n => decide (dotFree n))) strLe).map
        (fun n => (("metric.labels" : String), n))).symm))
    refine (List.perm_ext_iff_of_nodup (nodup_metricLabelColsOf records) ?_).mpr ?_
    · exact List.Nodup.map_on (fun x _ y _ h => congrArg Prod.snd h)
        ((nodup_metricKeyUnion records).filter _)
    · intro c
      rw [mem_metricLabelColsOf_iff, List.mem_map]
      constructor
      · rintro ⟨n, hn, hdfn, rfl⟩
        exact ⟨n, List.mem_filter.mpr ⟨hn, decide_eq_true_eq.mpr hdfn⟩, rfl⟩
      · rintro ⟨n, hn, rfl⟩
        rcases List.mem_filter.mp hn with ⟨hn2, hdfn⟩
        exact ⟨n, hn2, decide_eq_true_eq.mp hdfn, rfl⟩
  exact List.eq_of_perm_of_sorted hperm hs1 hs2

/-- The concrete external ordering is canonical: it depends only on the
multiset of label names, not on their order. -/
lemma sortedResourceLabels_canonical {l₁ l₂ : List String} (h : l₁.Perm l₂) :
    sortedResourceLabels l₁ = sortedResourceLabels l₂ := by
  unfold sortedResourceLabels
  have hc : ∀ x : String, l₁.contains x = l₂.contains x := by
    intro x
    by_cases hx : x ∈ l₁
    · have hx2 : x ∈ l₂ := h.mem_iff.mp hx
      simp [hx, hx2]
    · have hx2 : x ∉ l₂ := fun hh => hx (h.mem_iff.mpr hh)
      simp [hx, hx2]
  congr 1
  · exact List.filter_congr (fun x _ => hc x)
  · refine List.eq_of_perm_of_sorted
      ((List.mergeSort_perm _ _).trans ((h.filter _).trans (List.mergeSort_perm _ _).symm))
      (List.sorted_mergeSort strLe_trans strLe_total _)
      (List.sorted_mergeSort strLe_trans strLe_total _)

/-- C1 amended: for every non-empty input all of whose label names are
dot-free, whenever `labels_as_dataframe` returns a table (with `srl`
permuting the observed resource label names, as a canonical ordering
does), the column set of that table equals exactly the claimed set:
`(metric, type)`, `(resource, type)`, one `(metric.labels, name)` per name
in the union of metric label keys and one `(resource.labels, name)` per
name in the union of resource label keys.  A label name containing a dot
contributes no column at all (see the counterexample). -/
theorem C1_amended_column_set (srl : List String → List String)
    (records : List HeaderRecord) (df : DataFrame)
    (hne : records ≠ []) (hdf : recordsDotFree records)
    (hsrl : (srl ((resourceLabelColsOf records).map Prod.snd)).Perm
      ((resourceLabelColsOf records).map Prod.snd))
    (hok : labels_as_dataframe srl records = Except.ok df) :
    ∀ c, c ∈ df.columns ↔ c ∈ specColumns records := by
  obtain ⟨hrc, rfl⟩ := labels_ok_elim hne hok
  have hms : ∀ c : String × String,
      c ∈ (metricLabelColsOf records).mergeSort pairLe ↔
        ∃ n, n ∈ metricKeyUnion records ∧ c = ("metric.labels", n) := fun c =>
    (List.mergeSort_perm (metricLabelColsOf records) pairLe).mem_iff.trans
      (mem_metricLabelColsOf hdf)
  have hrs : ∀ c : String × String,
      c ∈ (srl ((resourceLabelColsOf records).map Prod.snd)).map
          (fun k => (("resource.labels" : String), k)) ↔
        ∃ n, n ∈ resourceKeyUnion records ∧ c = ("resource.labels", n) := by
    intro c
    rw [List.mem_map]
    constructor
    · rintro ⟨k, hk, rfl⟩
      exact ⟨k, (mem_resourceNames hdf).mp (hsrl.mem_iff.mp hk), rfl⟩
    · rintro ⟨n, hn, rfl⟩
      exact ⟨n, hsrl.mem_iff.mpr ((mem_resourceNames hdf).mpr hn), rfl⟩
  intro c
  show c ∈ sorted_columns srl records ↔ _
  unfold sorted_columns specColumns
  rw [List.mem_append, List.mem_append, hms c, hrs c,
      List.mem_append, List.mem_append, List.mem_map, List.mem_map]
  constructor
  · rintro ((h | ⟨n, hn, rfl⟩) | ⟨n, hn, rfl⟩)
    · exact Or.inl (Or.inl h)
    · exact Or.inl (Or.inr ⟨n, hn, rfl⟩)
    · exact Or.inr ⟨n, hn, rfl⟩
  · rintro ((h | ⟨n, hn, rfl⟩) | ⟨n, hn, rfl⟩)
    · exact Or.inl (Or.inl h)
    · exact Or.inl (Or.inr ⟨n, hn, rfl⟩)
    · exact Or.inr ⟨n, hn, rfl⟩

/-- Witness for the amended C1 at the worked example of the specification. -/
theorem C1_amended_column_set_witness :
    exampleRecords ≠ [] ∧ recordsDotFree exampleRecords ∧
    (sortedResourceLabels ((resourceLabelColsOf exampleRecords).map Prod.snd)).Perm
      ((resourceLabelColsOf exampleRecords).map Prod.snd) ∧
    labels_as_dataframe sortedResourceLabels exampleRecords =
      Except.ok ⟨[("metric", "type"), ("resource", "type"),
                  ("metric.labels", "instance_name"), ("resource.labels", "zone")],
                 [0, 1],
                 [["cpu/utilization", "gce_instance", "vm1", "us-central1-a"],
                  ["cpu/utilization", "gce_instance", "", "us-central1-b"]]⟩ ∧
    ((("metric.labels", "instance_name") ∈
        (DataFrame.mk [("metric", "type"), ("resource", "type"),
                       ("metric.labels", "instance_name"), ("resource.labels", "zone")]
          [0, 1]
          [["cpu/utilization", "gce_instance", "vm1", "us-central1-a"],
           ["cpu/utilization", "gce_instance", "", "us-central1-b"]]).columns) ↔
      ("metric.labels", "instance_name") ∈ specColumns exampleRecords) :=
  ⟨by decide, by decide, by decide, rfl,
   C1_amended_column_set sortedResourceLabels exampleRecords _
     (by decide) (by decide) (by decide) rfl ("metric.labels", "instance_name")⟩

/-- C2: in any table returned by `labels_as_dataframe` on any non-empty
input, the columns appear in exactly this order: `(metric, type)` first,
`(resource, type)` second, then all `(metric.labels, name)` columns with
the names sorted lexicographically — these names are exactly the dot-free
names of the union of metric label keys (names containing a dot contribute
no column, cf. C1) — then all `(resource.labels, name)` columns in the
order produced by the external canonical ordering function applied to the
observed resource label names, which are exactly the dot-free names of the
union of resource label keys.  No dot-free assumption on the input is
made. -/
theorem C2_column_order (srl : List String → List String)
    (records : List HeaderRecord) (df : DataFrame)
    (hne : records ≠ [])
    (hok : labels_as_dataframe srl records = Except.ok df) :
    df.columns =
      [("metric", "type"), ("resource", "type")]
        ++ ((((metricKeyUnion records).filter (fun n => decide (dotFree n))).mergeSort
            strLe).map (fun n => (("metric.labels" : String), n)))
        ++ (srl ((resourceLabelColsOf records).map Prod.snd)).map
            (fun k => (("resource.labels" : String), k)) ∧
    ((resourceLabelColsOf records).map Prod.snd).Perm
      ((resourceKeyUnion records).filter (fun n => decide (dotFree n))) ∧
    List.Sorted (fun a b : String => a ≤ b)
      (((metricKeyUnion records).filter (fun n => decide (dotFree n))).mergeSort
        strLe) := by
  obtain ⟨hrc, rfl⟩ := labels_ok_elim hne hok
  refine ⟨?_, resourceNames_perm_filter records, ?_⟩
  · show sorted_columns srl records = _
    unfold sorted_columns
    rw [mergeSort_metric_eq_filter records]
  · exact (List.sorted_mergeSort strLe_trans strLe_total _).imp
      (fun h => strLe_iff.mp h)

/-- Witness for C2 at an input that even contains a dotted metric label
name (`a.b`), showing the order theorem needs no dot-free assumption. -/
theorem C2_column_order_witness :
    ([⟨"gce_instance", [("zone", "us")], "cpu", [("a.b", "v")]⟩] :
      List HeaderRecord) ≠ [] ∧
    labels_as_dataframe sortedResourceLabels
      [⟨"gce_instance", [("zone", "us")], "cpu", [("a.b", "v")]⟩] =
      Except.ok ⟨[("metric", "type"), ("resource", "type"), ("resource.labels", "zone")],
                 [0], [["cpu", "gce_instance", "us"]]⟩ ∧
    ((DataFrame.mk [("metric", "type"), ("resource", "type"), ("resource.labels", "zone")]
        [0] [["cpu", "gce_instance", "us"]]).columns =
      [("metric", "type"), ("resource", "type")]
        ++ ((((metricKeyUnion [⟨"gce_instance", [("zone", "us")], "cpu", [("a.b", "v")]⟩]).filter
            (fun n => decide (dotFree n))).mergeSort strLe).map
            (fun n => (("metric.labels" : String), n)))
        ++ (sortedResourceLabels ((resourceLabelColsOf
            [⟨"gce_instance", [("zone", "us")], "cpu", [("a.b", "v")]⟩]).map Prod.snd)).map
            (fun k => (("resource.labels" : String), k)) ∧
      ((resourceLabelColsOf
          [⟨"gce_instance", [("zone", "us")], "cpu", [("a.b", "v")]⟩]).map Prod.snd).Perm
        ((resourceKeyUnion [⟨"gce_instance", [("zone", "us")], "cpu", [("a.b", "v")]⟩]).filter
          (fun n => decide (dotFree n))) ∧
      List.Sorted (fun a b : String => a ≤ b)
        (((metricKeyUnion [⟨"gce_instance", [("zone", "us")], "cpu", [("a.b", "v")]⟩]).filter
          (fun n => decide (dotFree n))).mergeSort strLe)) :=
  ⟨by decide, rfl,
   C2_column_order sortedResourceLabels
     [⟨"gce_instance", [("zone", "us")], "cpu", [("a.b", "v")]⟩] _ (by decide) rfl⟩

/-- Every column of `colsOf` comes from a flattened key split at its last
dot: the key reassembles as `group ++ "." ++ field` with a dot-free
field. -/
lemma exists_key_of_mem_colsOf {records : List HeaderRecord}
    {c : String × String} (h : c ∈ colsOf records) :
    ∃ k ∈ allColumns records, c = rsplitDot k ∧ k = c.1 ++ "." ++ c.2 ∧ dotFree c.2 := by
  unfold colsOf at h
  rcases List.mem_map.mp h with ⟨k, hk, rfl⟩
  obtain ⟨e, hdf⟩ := rsplitDot_spec (dot_mem_of_mem_allColumns hk)
  exact ⟨k, hk, rfl, e, hdf⟩

/-- C7: every two-level column header of the returned table is obtained by
splitting a flattened dotted key at its LAST dot into (group, field): the
key reassembles as `group ++ "." ++ field` and the field is dot-free; in
particular `resource.labels.zone` splits into `(resource.labels, zone)`
and `metric.type` into `(metric, type)`. -/
theorem C7_header_split (srl : List String → List String)
    (records : List HeaderRecord) (df : DataFrame)
    (hne : records ≠ [])
    (hsrl : (srl ((resourceLabelColsOf records).map Prod.snd)).Perm
      ((resourceLabelColsOf records).map Prod.snd))
    (hok : labels_as_dataframe srl records = Except.ok df) :
    (∀ c ∈ df.columns, ∃ k ∈ allColumns records,
      c = rsplitDot k ∧ k = c.1 ++ "." ++ c.2 ∧ dotFree c.2) ∧
    rsplitDot "resource.labels.zone" = ("resource.labels", "zone") ∧
    rsplitDot "metric.type" = ("metric", "type") := by
  obtain ⟨hrc, rfl⟩ := labels_ok_elim hne hok
  refine ⟨?_, rfl, rfl⟩
  intro c hc
  obtain ⟨r0, hr0⟩ := List.exists_mem_of_ne_nil records hne
  have hc2 : c ∈ sorted_columns srl records := hc
  unfold sorted_columns at hc2
  rcases List.mem_append.mp hc2 with hfix | hres
  · rcases List.mem_append.mp hfix with hfix2 | hmet
    · rcases List.mem_cons.mp hfix2 with rfl | hfix3
      · refine ⟨"metric.type", ?_, rsplit_metric_type.symm, rfl, by decide⟩
        exact (mem_allColumns records).mpr
          ⟨r0, hr0, (mem_flattenKeys r0).mpr (Or.inr (Or.inl rfl))⟩
      · rcases List.mem_singleton.mp hfix3 with rfl
        refine ⟨"resource.type", ?_, rsplit_resource_type.symm, rfl, by decide⟩
        exact (mem_allColumns records).mpr
          ⟨r0, hr0, (mem_flattenKeys r0).mpr (Or.inl rfl)⟩
    · have : c ∈ metricLabelColsOf records :=
        (List.mergeSort_perm (metricLabelColsOf records) pairLe).mem_iff.mp hmet
      exact exists_key_of_mem_colsOf (List.mem_filter.mp this).1
  · rcases List.mem_map.mp hres with ⟨n, hn, rfl⟩
    rcases List.mem_map.mp (hsrl.mem_iff.mp hn) with ⟨c2, hc2m, hsnd⟩
    have hfst := fst_eq_of_mem_resourceLabelColsOf hc2m
    have : c2 = ("resource.labels", n) := Prod.ext hfst hsnd
    rw [← this]
    exact exists_key_of_mem_colsOf (List.mem_filter.mp hc2m).1

/-- Witness for C7: the `(resource.labels, zone)` column of the worked
example comes from splitting a flattened key at its last dot. -/
theorem C7_header_split_witness :
    exampleRecords ≠ [] ∧
    (sortedResourceLabels ((resourceLabelColsOf exampleRecords).map Prod.snd)).Perm
      ((resourceLabelColsOf exampleRecords).map Prod.snd) ∧
    labels_as_dataframe sortedResourceLabels exampleRecords =
      Except.ok ⟨[("metric", "type"), ("resource", "type"),
                  ("metric.labels", "instance_name"), ("resource.labels", "zone")],
                 [0, 1],
                 [["cpu/utilization", "gce_instance", "vm1", "us-central1-a"],
                  ["cpu/utilization", "gce_instance", "", "us-central1-b"]]⟩ ∧
    ∃ k ∈ allColumns exampleRecords,
      (("resource.labels", "zone") : String × String) = rsplitDot k ∧
      k = "resource.labels" ++ "." ++ "zone" ∧ dotFree "zone" :=
  ⟨by decide, by decide, rfl,
   (C7_header_split sortedResourceLabels exampleRecords _ (by decide) (by decide)
     rfl).1 ("resource.labels", "zone") (by decide)⟩

/-- C5: every row of the returned table is the `fillna("")` projection of
one input record over the final columns, every record contributes its
projected row, and for any record and any column whose dotted key the
record lacks (in particular a label name present only in other records),
the row of that record holds the empty string at that column — never a
null/absent marker. -/
theorem C5_missing_labels_empty_string (srl : List String → List String)
    (records : List HeaderRecord) (df : DataFrame)
    (hok : labels_as_dataframe srl records = Except.ok df) :
    (∀ row ∈ df.rows, ∃ r ∈ records, row = fillRow (optRowOf df.columns r)) ∧
    (∀ r ∈ records, fillRow (optRowOf df.columns r) ∈ df.rows) ∧
    (∀ r ∈ records, ∀ (i : Nat) (c : String × String), df.columns[i]? = some c →
      lookupKey (flattenRecord r) (c.1 ++ "." ++ c.2) = none →
      (fillRow (optRowOf df.columns r))[i]? = some "") := by
  have hcell : ∀ (cols : List (String × String)) (r : HeaderRecord) (i : Nat)
      (c : String × String), cols[i]? = some c →
      lookupKey (flattenRecord r) (c.1 ++ "." ++ c.2) = none →
      (fillRow (optRowOf cols r))[i]? = some "" := by
    intro cols r i c hci hnone
    unfold fillRow optRowOf
    rw [List.getElem?_map, List.getElem?_map, hci]
    simp [hnone]
  rcases records with _ | ⟨r0, rs⟩
  · rw [labels_empty srl] at hok
    rcases Except.ok.inj hok
    refine ⟨?_, ?_, ?_⟩
    · intro row hrow
      exact absurd hrow (List.not_mem_nil row)
    · intro r hr
      exact absurd hr (List.not_mem_nil r)
    · intro r hr
      exact absurd hr (List.not_mem_nil r)
  · obtain ⟨hrc, rfl⟩ := labels_ok_elim (List.cons_ne_nil r0 rs) hok
    refine ⟨?_, ?_, fun r _ => hcell _ r⟩
    · intro row hrow
      have hrow2 : row ∈ (((r0 :: rs).map
          (optRowOf (sorted_columns srl (r0 :: rs)))).mergeSort rowLe).map fillRow := hrow
      rcases List.mem_map.mp hrow2 with ⟨orow, horow, rfl⟩
      have : orow ∈ (r0 :: rs).map (optRowOf (sorted_columns srl (r0 :: rs))) :=
        (List.mergeSort_perm _ rowLe).mem_iff.mp horow
      rcases List.mem_map.mp this with ⟨r, hr, rfl⟩
      exact ⟨r, hr, rfl⟩
    · intro r hr
      refine List.mem_map_of_mem fillRow ?_
      exact (List.mergeSort_perm _ rowLe).mem_iff.mpr (List.mem_map_of_mem _ hr)

/-- Witness for C5 at the worked example: the record without the
`instance_name` metric label gets the empty string in that column of its
row, and its row is in the table. -/
theorem C5_missing_labels_empty_string_witness :
    labels_as_dataframe sortedResourceLabels exampleRecords =
      Except.ok ⟨[("metric", "type"), ("resource", "type"),
                  ("metric.labels", "instance_name"), ("resource.labels", "zone")],
                 [0, 1],
                 [["cpu/utilization", "gce_instance", "vm1", "us-central1-a"],
                  ["cpu/utilization", "gce_instance", "", "us-central1-b"]]⟩ ∧
    (fillRow (optRowOf (DataFrame.mk [("metric", "type"), ("resource", "type"),
        ("metric.labels", "instance_name"), ("resource.labels", "zone")]
        [0, 1]
        [["cpu/utilization", "gce_instance", "vm1", "us-central1-a"],
         ["cpu/utilization", "gce_instance", "", "us-central1-b"]]).columns
        exampleRecordB))[2]? = some "" :=
  ⟨rfl,
   (C5_missing_labels_empty_string sortedResourceLabels exampleRecords _ rfl).2.2
     exampleRecordB (by decide) 2 ("metric.labels", "instance_name")
     (by decide) (by decide)⟩

/-- Permuting the input records permutes the discovered columns. -/
lemma colsOf_perm {records1 records2 : List HeaderRecord}
    (h : records1.Perm records2) : (colsOf records1).Perm (colsOf records2) := by
  unfold colsOf
  refine List.Perm.map rsplitDot ?_
  refine (List.perm_ext_iff_of_nodup (nodup_allColumns records1)
    (nodup_allColumns records2)).mpr ?_
  intro k
  rw [mem_allColumns, mem_allColumns]
  constructor
  · rintro ⟨r, hr, hk⟩
    exact ⟨r, h.mem_iff.mp hr, hk⟩
  · rintro ⟨r, hr, hk⟩
    exact ⟨r, h.mem_iff.mpr hr, hk⟩

lemma mergeSort_pairLe_eq_of_perm {l₁ l₂ : List (String × String)} (h : l₁.Perm l₂) :
    l₁.mergeSort pairLe = l₂.mergeSort pairLe :=
  List.eq_of_perm_of_sorted
    ((List.mergeSort_perm _ _).trans (h.trans (List.mergeSort_perm _ _).symm))
    (List.sorted_mergeSort pairLe_trans pairLe_total _)
    (List.sorted_mergeSort pairLe_trans pairLe_total _)

lemma mergeSort_rowLe_eq_of_perm {l₁ l₂ : List (List (Option String))}
    (h : l₁.Perm l₂) : l₁.mergeSort rowLe = l₂.mergeSort rowLe :=
  List.eq_of_perm_of_sorted
    ((List.mergeSort_perm _ _).trans (h.trans (List.mergeSort_perm _ _).symm))
    (List.sorted_mergeSort rowLe_trans rowLe_total _)
    (List.sorted_mergeSort rowLe_trans rowLe_total _)

/-- The re-ordered columns do not depend on the order of the input records
when the injected resource-label ordering is canonical (permutation
invariant). -/
lemma sorted_columns_perm_eq {srl : List String → List String}
    {records1 records2 : List HeaderRecord} (h : records1.Perm records2)
    (hcanon : ∀ l₁ l₂ : List String, l₁.Perm l₂ → srl l₁ = srl l₂) :
    sorted_columns srl records1 = sorted_columns srl records2 := by
  have hcols := colsOf_perm h
  unfold sorted_columns
  congr 1
  congr 1
  · exact mergeSort_pairLe_eq_of_perm (hcols.filter _)
  · have hrl : (resourceLabelColsOf records1).Perm (resourceLabelColsOf records2) :=
      hcols.filter _
    rw [hcanon _ _ (hrl.map Prod.snd)]

/-- C3: `labels_as_dataframe` is invariant under permutation of its input
records, provided the injected resource-label ordering is canonical (a
function of the set of names only, as the external one is): two inputs
holding the same records in different orders produce identical results —
same columns, same rows, same row order, or the same error. -/
theorem C3_permutation_invariant (srl : List String → List String)
    (records1 records2 : List HeaderRecord) (hperm : records1.Perm records2)
    (hcanon : ∀ l₁ l₂ : List String, l₁.Perm l₂ → srl l₁ = srl l₂) :
    labels_as_dataframe srl records1 = labels_as_dataframe srl records2 := by
  by_cases h1 : records1 = []
  · subst h1
    rw [hperm.symm.eq_nil]
  · have h2 : records2 ≠ [] := fun hh => h1 (hperm.trans (hh ▸ List.Perm.refl _)).eq_nil
    have hrlperm := (colsOf_perm hperm).filter (fun c => c.1 == "resource.labels")
    by_cases hrc1 : resourceLabelColsOf records1 = []
    · have hrc2 : resourceLabelColsOf records2 = [] := by
        have : (resourceLabelColsOf records1).Perm (resourceLabelColsOf records2) := hrlperm
        exact (hrc1 ▸ this).symm.eq_nil
      rw [labels_error_of_no_resource_cols h1 hrc1,
          labels_error_of_no_resource_cols h2 hrc2]
    · have hrc2 : resourceLabelColsOf records2 ≠ [] := by
        intro hh
        have : (resourceLabelColsOf records1).Perm (resourceLabelColsOf records2) := hrlperm
        exact hrc1 ((hh ▸ this).eq_nil)
      rw [labels_ok_of_resource_cols h1 hrc1, labels_ok_of_resource_cols h2 hrc2]
      have hsc := sorted_columns_perm_eq hperm hcanon
      have hrows : ((records1.map (optRowOf (sorted_columns srl records1))).mergeSort
          rowLe) = ((records2.map (optRowOf (sorted_columns srl records2))).mergeSort
          rowLe) := by
        rw [hsc]
        exact mergeSort_rowLe_eq_of_perm (hperm.map _)
      rw [hrows, hsc, hperm.length_eq]

/-- Witness for C3: swapping the two records of the worked example yields
the identical table, with the canonical concrete ordering. -/
theorem C3_permutation_invariant_witness :
    ([exampleRecordB, exampleRecordA].Perm [exampleRecordA, exampleRecordB]) ∧
    labels_as_dataframe sortedResourceLabels [exampleRecordB, exampleRecordA] =
      labels_as_dataframe sortedResourceLabels [exampleRecordA, exampleRecordB] :=
  ⟨by decide,
   C3_permutation_invariant sortedResourceLabels
     [exampleRecordB, exampleRecordA] [exampleRecordA, exampleRecordB]
     (by decide) (fun _ _ h => sortedResourceLabels_canonical h)⟩

/-- C8 refuted at a concrete input: two records identical except that only
the first carries the metric label `name`.  `sort_values` runs BEFORE
`fillna("")` and places the missing value (`NaN`) last, so the row whose
`name` cell is finally the empty string comes second — yet under plain
lexicographic comparison of the final cell values that row is strictly
smaller (the empty string precedes `"a"`), so the returned rows are not
sorted lexicographically over the final column values. -/
theorem C8_counterexample :
    labels_as_dataframe sortedResourceLabels
      [⟨"gce_instance", [("zone", "z")], "m", [("name", "a")]⟩,
       ⟨"gce_instance", [("zone", "z")], "m", []⟩] =
      Except.ok ⟨[("metric", "type"), ("resource", "type"),
                  ("metric.labels", "name"), ("resource.labels", "zone")],
                 [0, 1],
                 [["m", "gce_instance", "a", "z"],
                  ["m", "gce_instance", "", "z"]]⟩ ∧
    strRowLt ["m", "gce_instance", "", "z"] ["m", "gce_instance", "a", "z"] = true :=
  ⟨rfl, rfl⟩

/-- C8 amended: the rows of the returned table are the `fillna("")` images
of the option-valued record rows sorted lexicographically over the full
column tuple in final column order, where a missing value (rendered as the
empty string only afterwards) orders AFTER every present value; the row
index is the dense sequence `0, 1, ..., n-1` and there is one row per
input record. -/
theorem C8_amended_row_sort (srl : List String → List String)
    (records : List HeaderRecord) (df : DataFrame)
    (hne : records ≠ [])
    (hok : labels_as_dataframe srl records = Except.ok df) :
    df.index = List.range records.length ∧ df.rows.length = records.length ∧
    ∃ orows : List (List (Option String)),
      List.Sorted (fun a b => rowLe a b = true) orows ∧
      orows.Perm (records.map (optRowOf df.columns)) ∧
      df.rows = orows.map fillRow := by
  obtain ⟨hrc, rfl⟩ := labels_ok_elim hne hok
  refine ⟨rfl, ?_, ?_⟩
  · show (((records.map (optRowOf (sorted_columns srl records))).mergeSort
        rowLe).map fillRow).length = records.length
    rw [List.length_map, List.length_mergeSort, List.length_map]
  · exact ⟨(records.map (optRowOf (sorted_columns srl records))).mergeSort rowLe,
      List.sorted_mergeSort rowLe_trans rowLe_total _,
      List.mergeSort_perm _ _, rfl⟩

/-- Witness for the amended C8 at the worked example. -/
theorem C8_amended_row_sort_witness :
    exampleRecords ≠ [] ∧
    labels_as_dataframe sortedResourceLabels exampleRecords =
      Except.ok ⟨[("metric", "type"), ("resource", "type"),
                  ("metric.labels", "instance_name"), ("resource.labels", "zone")],
                 [0, 1],
                 [["cpu/utilization", "gce_instance", "vm1", "us-central1-a"],
                  ["cpu/utilization", "gce_instance", "", "us-central1-b"]]⟩ ∧
    ((DataFrame.mk [("metric", "type"), ("resource", "type"),
        ("metric.labels", "instance_name"), ("resource.labels", "zone")]
        [0, 1]
        [["cpu/utilization", "gce_instance", "vm1", "us-central1-a"],
         ["cpu/utilization", "gce_instance", "", "us-central1-b"]]).index =
      List.range exampleRecords.length ∧
     (DataFrame.mk [("metric", "type"), ("resource", "type"),
        ("metric.labels", "instance_name"), ("resource.labels", "zone")]
        [0, 1]
        [["cpu/utilization", "gce_instance", "vm1", "us-central1-a"],
         ["cpu/utilization", "gce_instance", "", "us-central1-b"]]).rows.length =
      exampleRecords.length ∧
     ∃ orows : List (List (Option String)),
       List.Sorted (fun a b => rowLe a b = true) orows ∧
       orows.Perm (exampleRecords.map (optRowOf (DataFrame.mk [("metric", "type"),
         ("resource", "type"), ("metric.labels", "instance_name"),
         ("resource.labels", "zone")]
         [0, 1]
         [["cpu/utilization", "gce_instance", "vm1", "us-central1-a"],
          ["cpu/utilization", "gce_instance", "", "us-central1-b"]]).columns)) ∧
       (DataFrame.mk [("metric", "type"), ("resource", "type"),
         ("metric.labels", "instance_name"), ("resource.labels", "zone")]
         [0, 1]
         [["cpu/utilization", "gce_instance", "vm1", "us-central1-a"],
          ["cpu/utilization", "gce_instance", "", "us-central1-b"]]).rows =
         orows.map fillRow) :=
  ⟨by decide, rfl,
   C8_amended_row_sort sortedResourceLabels exampleRecords _ (by decide) rfl⟩
